import Mathlib

/-!
A verification development for the lattice module `protis/threed/lattice.py`.

The Python module is embedded shallowly:

* floating-point numbers are idealised as exact real numbers (`ℝ`) at the
  `Lattice` level; the reciprocal-basis argument of the truncation routine is
  kept generic over a linearly ordered commutative ring so that concrete
  instances can be evaluated over `ℤ`;
* `int(nh ** (1 / 3))` is modelled as the exact integer cube root `iCbrt`
  (the floor of the real cube root of `nh`);
* `bk.argsort(Gl2)` followed by fancy indexing is modelled by sorting the
  flattened index triples with `List.insertionSort`; every property proved
  below depends only on the result being a permutation sorted by the keys;
* `u[i] ** 2`, the squared Euclidean norm of the reciprocal vector `Lk[i]`,
  is expanded to the exact dot product `dot3 (Lk i) (Lk i)`;
* Python exceptions are modelled with `Except`.
-/

namespace Protis

open Matrix

/-- Error raised by the `Lattice` constructor: unknown truncation method
(a Python `ValueError`). -/
inductive InitErr where
  | invalidTruncation
  deriving DecidableEq

/-- Errors raised by `Lattice.get_harmonics`: the `ValueError` for a
non-integer `nh`, and the `NotImplementedError` of `_spherical_truncation`. -/
inductive HErr where
  | nhNotInteger
  | notImplemented
  deriving DecidableEq

/-- The `discretization` argument of the constructor: either a scalar or a
sequence (modelled as a list). -/
inductive DiscrArg where
  | scalar (n : ℤ)
  | seq (l : List ℤ)

/-- `bk.dot` for 3-vectors. -/
def dot3 {α : Type} [LinearOrderedCommRing α] (v w : Fin 3 → α) : α :=
  v 0 * w 0 + v 1 * w 1 + v 2 * w 2

/-- `bk.cross` for 3-vectors. -/
def cross3 {α : Type} [LinearOrderedCommRing α] (v w : Fin 3 → α) : Fin 3 → α :=
  fun i =>
    if i = 0 then v 1 * w 2 - v 2 * w 1
    else if i = 1 then v 2 * w 0 - v 0 * w 2
    else v 0 * w 1 - v 1 * w 0

/-- Integer cube root: the largest `k` with `k ^ 3 ≤ n`, i.e. the floor of
the real cube root of `n`; models `int(nh ** (1 / 3))` computed exactly. -/
def iCbrt (n : ℕ) : ℕ := Nat.findGreatest (fun k => k ^ 3 ≤ n) n

/-- `NGroot` as computed by `_parallelogramic_truncation`: the integer cube
root of `nh`, decremented by one when even. -/
def NGroot (nh : ℕ) : ℕ := if iCbrt nh % 2 = 0 then iCbrt nh - 1 else iCbrt nh

/-- `xG = bk.arange(-M, NGroot - M)` with `M = NGroot // 2`. -/
def xG (NG : ℕ) : List ℤ := (List.range NG).map fun i : ℕ => (i : ℤ) - ((NG / 2 : ℕ) : ℤ)

/-- The flattened `meshgrid(xG, xG, xG, indexing="ij")`, as the list of
columns `(i1, i2, i3)`; `List.product` reproduces the row-major flattening
order of the three parallel index arrays. -/
def cubeG (NG : ℕ) : List (ℤ × ℤ × ℤ) := xG NG ×ˢ (xG NG ×ˢ xG NG)

/-- The weighted quadratic form `Gl2`, accumulated over the cyclically
adjacent axis pairs `(2,0)`, `(0,1)`, `(1,2)` (Python loop indices
`-1, 0, 1` with negative indexing); `u[i] ** 2` appears exactly as
`dot3 (Lk i) (Lk i)` and `udot` as `dot3 (Lk i) (Lk (i+1))`. -/
def Gl2 {α : Type} [LinearOrderedCommRing α] (Lk : Fin 3 → Fin 3 → α)
    (g : ℤ × ℤ × ℤ) : α :=
  ((g.2.2 : α) ^ 2 * dot3 (Lk 2) (Lk 2) + (g.1 : α) ^ 2 * dot3 (Lk 0) (Lk 0) +
      2 * (g.2.2 : α) * (g.1 : α) * dot3 (Lk 2) (Lk 0)) +
    ((g.1 : α) ^ 2 * dot3 (Lk 0) (Lk 0) + (g.2.1 : α) ^ 2 * dot3 (Lk 1) (Lk 1) +
      2 * (g.1 : α) * (g.2.1 : α) * dot3 (Lk 0) (Lk 1)) +
    ((g.2.1 : α) ^ 2 * dot3 (Lk 1) (Lk 1) + (g.2.2 : α) ^ 2 * dot3 (Lk 2) (Lk 2) +
      2 * (g.2.1 : α) * (g.2.2 : α) * dot3 (Lk 1) (Lk 2))

/-- The comparison key relation used to model `jsort = bk.argsort(Gl2)`. -/
def gl2LE {α : Type} [LinearOrderedCommRing α] (Lk : Fin 3 → Fin 3 → α)
    (g g' : ℤ × ℤ × ℤ) : Prop :=
  Gl2 Lk g ≤ Gl2 Lk g'

instance {α : Type} [LinearOrderedCommRing α] (Lk : Fin 3 → Fin 3 → α) :
    DecidableRel (gl2LE Lk) :=
  fun g g' => inferInstanceAs (Decidable (Gl2 Lk g ≤ Gl2 Lk g'))

/-- `_parallelogramic_truncation(nh, Lk)`: build the cube of candidate
triples, sort it by `Gl2`, set `nh = NGroot ** 3` and keep the first `nh`
columns. -/
def _parallelogramic_truncation {α : Type} [LinearOrderedCommRing α] (nh : ℕ)
    (Lk : Fin 3 → Fin 3 → α) : List (ℤ × ℤ × ℤ) × ℕ :=
  let NG := NGroot nh
  (((cubeG NG).insertionSort (gl2LE Lk)).take (NG ^ 3), NG ^ 3)

/-- `_spherical_truncation` raises `NotImplementedError` before any other
statement. -/
def _spherical_truncation {α : Type} [LinearOrderedCommRing α] (nh : ℕ)
    (Lk : Fin 3 → Fin 3 → α) : Except HErr (List (ℤ × ℤ × ℤ) × ℕ) :=
  .error .notImplemented

/-- The `Lattice` object: the state stored by the constructor. -/
structure Lattice where
  basis_vectors : Fin 3 → Fin 3 → ℝ
  discretization : List ℤ
  truncation : String
  harmonics_array : Option (List (ℤ × ℤ × ℤ))

/-- The scalar broadcast performed on `discretization` by `Lattice.__init__`:
the source turns a scalar `N` into the pair `[N, N]`, not a triple. -/
def initDiscretization : DiscrArg → List ℤ
  | .scalar n => [n, n]
  | .seq l => l

/-- `Lattice.__init__`: broadcasts `discretization`, validates the truncation
string against the two recognised values, and stores the fields; no other
validation is performed. -/
def mkLattice (bv : Fin 3 → Fin 3 → ℝ) (d : DiscrArg) (t : String)
    (ha : Option (List (ℤ × ℤ × ℤ))) : Except InitErr Lattice :=
  if t = "spherical" ∨ t = "parallelogrammic" then
    .ok ⟨bv, initDiscretization d, t, ha⟩
  else .error .invalidTruncation

/-- `Lattice.matrix`: the transpose of the row-major array of basis vectors,
so the basis vectors are its columns. -/
def Lattice.matrix (L : Lattice) : Matrix (Fin 3) (Fin 3) ℝ :=
  (Matrix.of L.basis_vectors)ᵀ

/-- `Lattice.reciprocal = 2 * pi * inv(matrix).T`. -/
noncomputable def Lattice.reciprocal (L : Lattice) : Matrix (Fin 3) (Fin 3) ℝ :=
  (2 * Real.pi) • (L.matrix⁻¹)ᵀ

/-- The rows of `reciprocal`, as iterated by `for value in Lk`. -/
noncomputable def Lattice.reciprocalRows (L : Lattice) : Fin 3 → Fin 3 → ℝ :=
  fun i j => L.reciprocal i j

/-- `Lattice.volume = bk.linalg.norm(bk.cross(v[0], v[1]) @ v[2])`; the norm
of a scalar is its absolute value. -/
noncomputable def Lattice.volume (L : Lattice) : ℝ :=
  |dot3 (cross3 (L.basis_vectors 0) (L.basis_vectors 1)) (L.basis_vectors 2)|

/-- `Lattice.get_harmonics(nh)`: the override path for a preset
`harmonics_array`, the `int(nh) != nh` check (for the rational `nh` this is
`nh.den ≠ 1`), and dispatch on the truncation string. -/
noncomputable def Lattice.get_harmonics (L : Lattice) (nh : ℚ) :
    Except HErr (List (ℤ × ℤ × ℤ) × ℕ) :=
  match L.harmonics_array with
  | some ha => .ok (ha, ha.length)
  | none =>
    if nh.den ≠ 1 then .error .nhNotInteger
    else if L.truncation = "spherical" then
      _spherical_truncation nh.num.toNat L.reciprocalRows
    else .ok (_parallelogramic_truncation nh.num.toNat L.reciprocalRows)

/-- `bk.linspace(0, 1.0, n)` evaluated at index `k`. -/
def linspace01 (n k : ℕ) : ℚ := if n ≤ 1 then 0 else (k : ℚ) / ((n : ℚ) - 1)

/-- `Lattice.unit_grid` for a lattice whose `discretization` is a triple
`(Nx, Ny, Nz)`: `bk.stack(bk.meshgrid(x0, y0, z0, indexing="ij"))`, so the
entry at `(a, i, j, k)` is axis `a`'s linspace read at that axis's own
index; the shape `(3, Nx, Ny, Nz)` is carried by the type. -/
def unit_grid (Nx Ny Nz : ℕ) (a : Fin 3) (i : Fin Nx) (j : Fin Ny) (k : Fin Nz) : ℚ :=
  if a = 0 then linspace01 Nx i
  else if a = 1 then linspace01 Ny j
  else linspace01 Nz k

/-- Cyclic rotation of a triple of basis vectors. -/
def cyc (B : Fin 3 → Fin 3 → ℝ) : Fin 3 → Fin 3 → ℝ := fun i => B (i + 1)

/-- The orthonormal (identity) reciprocal basis, integer-valued. -/
def qId : Fin 3 → Fin 3 → ℤ := fun i j => if i = j then 1 else 0

/-- The identity basis vectors over `ℝ`. -/
def rId : Fin 3 → Fin 3 → ℝ := fun i j => if i = j then 1 else 0

/-- A concrete lattice (identity basis, default broadcast discretization,
parallelogrammic truncation, no preset harmonics). -/
def latticeId : Lattice := ⟨rId, [256, 256], "parallelogrammic", none⟩

/-- Membership bound for one component of a cube triple:
`x ∈ [-M, NG - M)` with `M = NG // 2`. -/
def inCube (NG : ℕ) (x : ℤ) : Prop :=
  -((NG / 2 : ℕ) : ℤ) ≤ x ∧ x < (NG : ℤ) - ((NG / 2 : ℕ) : ℤ)

instance (NG : ℕ) (x : ℤ) : Decidable (inCube NG x) :=
  inferInstanceAs (Decidable (_ ∧ _))


/- Helper lemmas about the integer cube root. -/

theorem iCbrt_cube_le (n : ℕ) : iCbrt n ^ 3 ≤ n := by
  by_cases h : iCbrt n = 0
  · simp [h]
  · exact Nat.findGreatest_of_ne_zero (P := fun k => k ^ 3 ≤ n) rfl h

theorem lt_iCbrt_succ_cube (n : ℕ) : n < (iCbrt n + 1) ^ 3 := by
  by_contra hcon
  push_neg at hcon
  have hle : iCbrt n + 1 ≤ n := le_trans (Nat.le_self_pow (by norm_num) _) hcon
  have h2 : iCbrt n + 1 ≤ iCbrt n :=
    Nat.le_findGreatest (P := fun k => k ^ 3 ≤ n) hle hcon
  omega

theorem one_le_iCbrt {n : ℕ} (h : 1 ≤ n) : 1 ≤ iCbrt n :=
  Nat.le_findGreatest (P := fun k => k ^ 3 ≤ n) h (by simpa using h)

theorem NGroot_le_iCbrt (nh : ℕ) : NGroot nh ≤ iCbrt nh := by
  unfold NGroot; split <;> omega

theorem NGroot_odd {nh : ℕ} (h : 1 ≤ nh) : NGroot nh % 2 = 1 := by
  have h1 := one_le_iCbrt h
  unfold NGroot
  split <;> omega

theorem one_le_NGroot {nh : ℕ} (h : 1 ≤ nh) : 1 ≤ NGroot nh := by
  have := NGroot_odd h
  omega

theorem NGroot_cube_le {nh : ℕ} (h : 1 ≤ nh) : NGroot nh ^ 3 ≤ nh :=
  le_trans (Nat.pow_le_pow_left (NGroot_le_iCbrt nh) 3) (iCbrt_cube_le nh)

/- Helper lemmas about the candidate cube. -/

theorem length_xG (NG : ℕ) : (xG NG).length = NG := by
  simp [xG]

theorem mem_xG {NG : ℕ} {x : ℤ} : x ∈ xG NG ↔ inCube NG x := by
  unfold xG inCube
  rw [List.mem_map]
  constructor
  · rintro ⟨i, hi, rfl⟩
    rw [List.mem_range] at hi
    omega
  · rintro ⟨h1, h2⟩
    refine ⟨(x + ((NG / 2 : ℕ) : ℤ)).toNat, ?_, ?_⟩
    · rw [List.mem_range]
      omega
    · omega

theorem length_cubeG (NG : ℕ) : (cubeG NG).length = NG ^ 3 := by
  unfold cubeG
  rw [List.length_product, List.length_product, length_xG]
  ring

theorem mem_cubeG {NG : ℕ} {g : ℤ × ℤ × ℤ} :
    g ∈ cubeG NG ↔ inCube NG g.1 ∧ inCube NG g.2.1 ∧ inCube NG g.2.2 := by
  obtain ⟨a, b, c⟩ := g
  simp [cubeG, mem_xG]

/- Helper lemmas about the sorted truncation output. -/

theorem trunc_fst_perm {α : Type} [LinearOrderedCommRing α] (nh : ℕ)
    (Lk : Fin 3 → Fin 3 → α) :
    (_parallelogramic_truncation nh Lk).1.Perm (cubeG (NGroot nh)) := by
  show (((cubeG (NGroot nh)).insertionSort (gl2LE Lk)).take (NGroot nh ^ 3)).Perm
    (cubeG (NGroot nh))
  have hlen : ((cubeG (NGroot nh)).insertionSort (gl2LE Lk)).length ≤ NGroot nh ^ 3 :=
    le_of_eq ((List.perm_insertionSort _ _).length_eq.trans (length_cubeG _))
  rw [List.take_of_length_le hlen]
  exact List.perm_insertionSort _ _

theorem trunc_sorted {α : Type} [LinearOrderedCommRing α] (nh : ℕ)
    (Lk : Fin 3 → Fin 3 → α) :
    List.Sorted (gl2LE Lk) (_parallelogramic_truncation nh Lk).1 := by
  haveI : IsTotal (ℤ × ℤ × ℤ) (gl2LE Lk) := ⟨fun a b => le_total _ _⟩
  haveI : IsTrans (ℤ × ℤ × ℤ) (gl2LE Lk) := ⟨fun a b c => le_trans⟩
  exact List.Pairwise.sublist (List.take_sublist _ _) (List.sorted_insertionSort _ _)

/- Dispatch of `get_harmonics` to the parallelogrammic truncation. -/

theorem get_harmonics_of_none_para (L : Lattice) (nh : ℕ)
    (hha : L.harmonics_array = none) (ht : L.truncation = "parallelogrammic") :
    L.get_harmonics (nh : ℚ) =
      .ok (_parallelogramic_truncation nh L.reciprocalRows) := by
  have hs : ("parallelogrammic" : String) ≠ "spherical" := by decide
  unfold Lattice.get_harmonics
  rw [hha]
  simp [ht, hs, Rat.den_natCast, Rat.num_natCast, Int.toNat_natCast]



/-- C1: for a lattice with parallelogrammic truncation and no preset
harmonics array, and any integer `nh ≥ 1`, `get_harmonics` computes
`NGroot` as the floor of the cube root of `nh` (decremented when even,
as recorded by `NGroot`), and returns exactly `NGroot ^ 3` harmonics
whose columns are precisely the full `NGroot × NGroot × NGroot` cube of
integer triples with every component in `[-M, NGroot - M)`, `M = NGroot / 2`,
together with `nh_actual = NGroot ^ 3`. -/
theorem parallelogramic_full_cube (L : Lattice) (nh : ℕ)
    (hha : L.harmonics_array = none) (ht : L.truncation = "parallelogrammic")
    (h1 : 1 ≤ nh) :
    iCbrt nh ^ 3 ≤ nh ∧ nh < (iCbrt nh + 1) ^ 3 ∧
      L.get_harmonics (nh : ℚ) =
        .ok (_parallelogramic_truncation nh L.reciprocalRows) ∧
      (_parallelogramic_truncation nh L.reciprocalRows).2 = NGroot nh ^ 3 ∧
      (_parallelogramic_truncation nh L.reciprocalRows).1.length = NGroot nh ^ 3 ∧
      (_parallelogramic_truncation nh L.reciprocalRows).1.Perm (cubeG (NGroot nh)) ∧
      ∀ g : ℤ × ℤ × ℤ,
        g ∈ (_parallelogramic_truncation nh L.reciprocalRows).1 ↔
          inCube (NGroot nh) g.1 ∧ inCube (NGroot nh) g.2.1 ∧ inCube (NGroot nh) g.2.2 :=
  ⟨iCbrt_cube_le nh, lt_iCbrt_succ_cube nh, get_harmonics_of_none_para L nh hha ht, rfl,
    (trunc_fst_perm nh L.reciprocalRows).length_eq.trans (length_cubeG _),
    trunc_fst_perm nh L.reciprocalRows,
    fun g => ((trunc_fst_perm nh L.reciprocalRows).mem_iff).trans mem_cubeG⟩

/-- Witness for C1 at the concrete lattice `latticeId` and `nh = 27`. -/
theorem parallelogramic_full_cube_witness :
    iCbrt 27 ^ 3 ≤ 27 ∧ 27 < (iCbrt 27 + 1) ^ 3 ∧
      latticeId.get_harmonics ((27 : ℕ) : ℚ) =
        .ok (_parallelogramic_truncation 27 latticeId.reciprocalRows) ∧
      (_parallelogramic_truncation 27 latticeId.reciprocalRows).2 = NGroot 27 ^ 3 ∧
      (_parallelogramic_truncation 27 latticeId.reciprocalRows).1.length = NGroot 27 ^ 3 ∧
      (_parallelogramic_truncation 27 latticeId.reciprocalRows).1.Perm (cubeG (NGroot 27)) ∧
      ∀ g : ℤ × ℤ × ℤ,
        g ∈ (_parallelogramic_truncation 27 latticeId.reciprocalRows).1 ↔
          inCube (NGroot 27) g.1 ∧ inCube (NGroot 27) g.2.1 ∧ inCube (NGroot 27) g.2.2 :=
  parallelogramic_full_cube latticeId 27 rfl rfl (by decide)

/-- C10: for a lattice with parallelogrammic truncation and no preset
harmonics array, and any integer `nh ≥ 1`, the returned `nh_actual` is an
odd positive perfect cube and never exceeds the requested `nh`. -/
theorem nh_actual_odd_cube_le (L : Lattice) (nh : ℕ)
    (hha : L.harmonics_array = none) (ht : L.truncation = "parallelogrammic")
    (h1 : 1 ≤ nh) :
    ∃ G : List (ℤ × ℤ × ℤ), ∃ m : ℕ,
      L.get_harmonics (nh : ℚ) = .ok (G, m) ∧
        Odd m ∧ 0 < m ∧ (∃ k : ℕ, m = k ^ 3) ∧ m ≤ nh :=
  ⟨(_parallelogramic_truncation nh L.reciprocalRows).1, NGroot nh ^ 3,
    get_harmonics_of_none_para L nh hha ht,
    (Nat.odd_iff.mpr (NGroot_odd h1)).pow,
    pow_pos (one_le_NGroot h1) 3,
    ⟨NGroot nh, rfl⟩, NGroot_cube_le h1⟩

/-- Witness for C10 at the concrete lattice `latticeId` and `nh = 10`. -/
theorem nh_actual_odd_cube_le_witness :
    ∃ G : List (ℤ × ℤ × ℤ), ∃ m : ℕ,
      latticeId.get_harmonics ((10 : ℕ) : ℚ) = .ok (G, m) ∧
        Odd m ∧ 0 < m ∧ (∃ k : ℕ, m = k ^ 3) ∧ m ≤ 10 :=
  nh_actual_odd_cube_le latticeId 10 rfl rfl (by decide)

/-- C2: for a lattice with parallelogrammic truncation and no preset
harmonics array the harmonics returned by `get_harmonics` are ordered by
the weighted quadratic form `Gl2` in ascending order; in particular for
`nh = 27` and an orthonormal reciprocal basis, 27 harmonics are returned,
spanning indices in `{-1,0,1}^3`, with the triple `(0,0,0)` (whose `Gl2`
is `0`) first. -/
theorem get_harmonics_sorted_by_Gl2 :
    (∀ (L : Lattice) (nh : ℕ), L.harmonics_array = none →
        L.truncation = "parallelogrammic" →
        ∃ G : List (ℤ × ℤ × ℤ),
          L.get_harmonics (nh : ℚ) = .ok (G, NGroot nh ^ 3) ∧
            List.Sorted (gl2LE L.reciprocalRows) G) ∧
      (_parallelogramic_truncation 27 qId).2 = 27 ∧
      (_parallelogramic_truncation 27 qId).1.length = 27 ∧
      (∀ g ∈ (_parallelogramic_truncation 27 qId).1,
        g.1 ∈ ([-1, 0, 1] : List ℤ) ∧ g.2.1 ∈ ([-1, 0, 1] : List ℤ) ∧
          g.2.2 ∈ ([-1, 0, 1] : List ℤ)) ∧
      Gl2 qId (0, 0, 0) = 0 ∧
      (_parallelogramic_truncation 27 qId).1.head? = some (0, 0, 0) :=
  ⟨fun L nh hha ht =>
    ⟨(_parallelogramic_truncation nh L.reciprocalRows).1,
      get_harmonics_of_none_para L nh hha ht, trunc_sorted nh L.reciprocalRows⟩,
    by decide, by decide, by decide, by decide, by decide⟩

/-- Witness for C2 at the concrete lattice `latticeId` and `nh = 27`. -/
theorem get_harmonics_sorted_by_Gl2_witness :
    ∃ G : List (ℤ × ℤ × ℤ),
      latticeId.get_harmonics ((27 : ℕ) : ℚ) = .ok (G, NGroot 27 ^ 3) ∧
        List.Sorted (gl2LE latticeId.reciprocalRows) G :=
  get_harmonics_sorted_by_Gl2.1 latticeId 27 rfl rfl

/-- C3: a lattice constructed with a preset `harmonics_array` returns that
array unchanged from `get_harmonics`, with `nh_actual` equal to its column
count, for every requested `nh` (integer-valued or not) and any truncation
string, with no algorithmic truncation and no integer check on `nh`. -/
theorem get_harmonics_override (bv : Fin 3 → Fin 3 → ℝ) (d : List ℤ) (t : String)
    (ha : List (ℤ × ℤ × ℤ)) (nh : ℚ) :
    Lattice.get_harmonics ⟨bv, d, t, some ha⟩ nh = .ok (ha, ha.length) := rfl

/-- C4 counterexample: a lattice constructed with `truncation="spherical"`
but with a preset `harmonics_array` does not fail at all: `get_harmonics`
returns the array, so the claim "always fails with NotImplemented" is false
as stated. -/
theorem spherical_with_array_returns :
    Lattice.get_harmonics ⟨rId, [256, 256], "spherical", some [(0, 0, 0)]⟩ 3 =
        .ok ([(0, 0, 0)], 1) ∧
      ∀ e : HErr,
        Lattice.get_harmonics ⟨rId, [256, 256], "spherical", some [(0, 0, 0)]⟩ 3 ≠
          .error e :=
  ⟨rfl, fun e h => Except.noConfusion h⟩

/-- C4 (amended): for every lattice constructed with
`truncation="spherical"` and no `harmonics_array`, `get_harmonics` fails
on every input `nh` — with the `NotImplemented` error when `nh` is
integer-valued, and with the non-integer-`nh` `ValueError` otherwise. -/
theorem spherical_no_array_always_fails (bv : Fin 3 → Fin 3 → ℝ) (d : List ℤ)
    (nh : ℚ) :
    Lattice.get_harmonics ⟨bv, d, "spherical", none⟩ nh =
      .error (if nh.den = 1 then HErr.notImplemented else HErr.nhNotInteger) := by
  by_cases h : nh.den = 1 <;>
    simp [Lattice.get_harmonics, _spherical_truncation, h]

/-- C5: the claim (and the constructor docstring) say a scalar
discretization `N` is stored as the triple `(N, N, N)`, but the source
broadcasts it to the pair `[N, N]`; at the default scalar `256` the stored
`discretization` is `[256, 256]`, a list of length 2, not
`[256, 256, 256]`. -/
theorem scalar_discretization_is_pair :
    mkLattice rId (.scalar 256) "parallelogrammic" none =
        .ok ⟨rId, [256, 256], "parallelogrammic", none⟩ ∧
      initDiscretization (.scalar 256) = [256, 256] ∧
      ([256, 256] : List ℤ) ≠ [256, 256, 256] ∧
      (initDiscretization (.scalar 256)).length = 2 :=
  ⟨rfl, rfl, by decide, rfl⟩

/-- C6: for every lattice whose basis matrix is invertible (linearly
independent basis vectors), the transpose of `reciprocal` multiplied by
`matrix`, divided by `2 * pi`, is the 3 × 3 identity. -/
theorem reciprocal_transpose_mul_matrix (L : Lattice)
    (h : IsUnit L.matrix.det) :
    (1 / (2 * Real.pi)) • (L.reciprocalᵀ * L.matrix) = 1 := by
  have hpi : (2 * Real.pi) ≠ 0 := mul_ne_zero two_ne_zero Real.pi_ne_zero
  rw [Lattice.reciprocal, Matrix.transpose_smul, Matrix.transpose_transpose,
    Matrix.smul_mul, Matrix.nonsing_inv_mul _ h, smul_smul, one_div,
    inv_mul_cancel₀ hpi, one_smul]

/-- Witness for C6 at the identity-basis lattice. -/
theorem reciprocal_transpose_mul_matrix_witness :
    IsUnit latticeId.matrix.det ∧
      (1 / (2 * Real.pi)) • (latticeId.reciprocalᵀ * latticeId.matrix) = 1 :=
  have hm : latticeId.matrix = 1 := by
    ext i j
    simp [Lattice.matrix, latticeId, rId, Matrix.one_apply, eq_comm]
  have h : IsUnit latticeId.matrix.det := by rw [hm]; simp
  ⟨h, reciprocal_transpose_mul_matrix latticeId h⟩

/-- C7: `volume` is the absolute value of the scalar triple product
`cross(v0, v1) · v2` of the basis vectors, and is unchanged under either
cyclic permutation of the three basis vectors. -/
theorem volume_triple_product_cyclic (L : Lattice) (d : List ℤ) (t : String)
    (ha : Option (List (ℤ × ℤ × ℤ))) :
    L.volume =
        |dot3 (cross3 (L.basis_vectors 0) (L.basis_vectors 1)) (L.basis_vectors 2)| ∧
      (Lattice.mk (cyc L.basis_vectors) d t ha).volume = L.volume ∧
      (Lattice.mk (cyc (cyc L.basis_vectors)) d t ha).volume = L.volume := by
  have c0 : ∀ v w : Fin 3 → ℝ, cross3 v w 0 = v 1 * w 2 - v 2 * w 1 := fun v w => rfl
  have c1 : ∀ v w : Fin 3 → ℝ, cross3 v w 1 = v 2 * w 0 - v 0 * w 2 := fun v w => rfl
  have c2 : ∀ v w : Fin 3 → ℝ, cross3 v w 2 = v 0 * w 1 - v 1 * w 0 := fun v w => rfl
  have key : ∀ B : Fin 3 → Fin 3 → ℝ,
      dot3 (cross3 (B 1) (B 2)) (B 0) = dot3 (cross3 (B 0) (B 1)) (B 2) := by
    intro B
    simp only [dot3, c0, c1, c2]
    ring
  have e0 : ((0 : Fin 3) + 1) = 1 := rfl
  have e1 : ((1 : Fin 3) + 1) = 2 := rfl
  have e2 : ((2 : Fin 3) + 1) = 0 := rfl
  refine ⟨rfl, ?_, ?_⟩
  · show |dot3 (cross3 (cyc L.basis_vectors 0) (cyc L.basis_vectors 1))
        (cyc L.basis_vectors 2)| = L.volume
    simp only [cyc, e0, e1, e2]
    show |dot3 (cross3 (L.basis_vectors 1) (L.basis_vectors 2)) (L.basis_vectors 0)| =
      L.volume
    rw [key L.basis_vectors]
    rfl
  · show |dot3 (cross3 (cyc (cyc L.basis_vectors) 0) (cyc (cyc L.basis_vectors) 1))
        (cyc (cyc L.basis_vectors) 2)| = L.volume
    simp only [cyc, e0, e1, e2]
    show |dot3 (cross3 (L.basis_vectors 2) (L.basis_vectors 0)) (L.basis_vectors 1)| =
      L.volume
    rw [show ∀ B : Fin 3 → Fin 3 → ℝ,
        dot3 (cross3 (B 2) (B 0)) (B 1) = dot3 (cross3 (B 1) (B 2)) (B 0) from
      fun B => key (cyc B), key L.basis_vectors]
    rfl

/-- C8: constructing a lattice with a truncation string other than
"spherical" or "parallelogrammic" fails with the invalid-argument error,
and this is the only validation: for either recognised truncation string
the constructor succeeds for arbitrary basis vectors, arbitrary (possibly
non-positive) discretization values, and any harmonics array. -/
theorem init_validates_only_truncation (bv : Fin 3 → Fin 3 → ℝ) (d : DiscrArg)
    (t : String) (ha : Option (List (ℤ × ℤ × ℤ))) :
    (t ≠ "spherical" ∧ t ≠ "parallelogrammic" →
        mkLattice bv d t ha = .error .invalidTruncation) ∧
      (t = "spherical" ∨ t = "parallelogrammic" →
        mkLattice bv d t ha = .ok ⟨bv, initDiscretization d, t, ha⟩) := by
  unfold mkLattice
  constructor
  · rintro ⟨h1, h2⟩
    rw [if_neg]
    rintro (h | h) <;> contradiction
  · intro h
    rw [if_pos h]

/-- Witness for C8: `truncation="hexagonal"` is rejected while a negative
scalar discretization is accepted under a recognised truncation string. -/
theorem init_validates_only_truncation_witness :
    mkLattice rId (.scalar (-3)) "hexagonal" none = .error .invalidTruncation ∧
      mkLattice rId (.scalar (-3)) "parallelogrammic" none =
        .ok ⟨rId, [-3, -3], "parallelogrammic", none⟩ :=
  ⟨(init_validates_only_truncation rId (.scalar (-3)) "hexagonal" none).1
      (by constructor <;> decide),
    (init_validates_only_truncation rId (.scalar (-3)) "parallelogrammic" none).2
      (Or.inr rfl)⟩

/-- C9: for a lattice whose discretization is the triple `(Nx, Ny, Nz)`,
every value of `unit_grid` lies in `[0, 1]` (the shape `(3, Nx, Ny, Nz)` is
carried by the type), and output axis `a` corresponds one-to-one to input
axis `a` ("ij" indexing, no transposition): axis 0 reads only `i` through
`linspace01 Nx`, axis 1 only `j`, axis 2 only `k`. -/
theorem unit_grid_bounds_and_axes (Nx Ny Nz : ℕ) (a : Fin 3) (i : Fin Nx)
    (j : Fin Ny) (k : Fin Nz) :
    (0 ≤ unit_grid Nx Ny Nz a i j k ∧ unit_grid Nx Ny Nz a i j k ≤ 1) ∧
      unit_grid Nx Ny Nz 0 i j k = linspace01 Nx i ∧
      unit_grid Nx Ny Nz 1 i j k = linspace01 Ny j ∧
      unit_grid Nx Ny Nz 2 i j k = linspace01 Nz k := by
  have key : ∀ n : ℕ, ∀ m : Fin n, 0 ≤ linspace01 n m ∧ linspace01 n m ≤ 1 := by
    intro n m
    have hmn := m.isLt
    unfold linspace01
    split_ifs with hn
    · norm_num
    · push_neg at hn
      have hpos : (0 : ℚ) < (n : ℚ) - 1 := by
        have h2 : (2 : ℚ) ≤ (n : ℚ) := by exact_mod_cast hn
        linarith
      constructor
      · positivity
      · rw [div_le_one hpos]
        have hc : ((m : ℕ) : ℚ) + 1 ≤ (n : ℚ) := by exact_mod_cast hmn
        linarith
  refine ⟨?_, rfl, rfl, rfl⟩
  fin_cases a
  · exact key Nx i
  · exact key Ny j
  · exact key Nz k

end Protis

